import Mathlib

/-!
Verification of the FluffyUI agent demo protocol client
(src/examples/ai-agent-demo/agent.py).

The embedding works over byte/character lists (`List Char`): the wire
protocol is UTF-8 JSON lines, and every string the program manipulates is
modelled as its sequence of Unicode scalar values.

Modelling notes, fixed once here:
* Python values that can reach `json.dumps` are modelled by `PyVal`.
  JSON numbers are modelled as integers only (the demo never uses floats;
  float literals, `NaN`/`Infinity` and `parse_float` behaviour are outside
  the embedding, as is any non-scalar-value string content such as lone
  surrogates, which Lean `Char` cannot represent).
* `PyVal.other` stands for any Python object `json.dumps` cannot encode
  (it raises `TypeError`); `pyDumps` returns `Option.none` for it.
* `json.loads` is modelled by `pyLoads`: leading/trailing JSON whitespace
  is skipped, a single value is parsed, and trailing garbage is an error,
  exactly as in Python. Duplicate object keys follow Python dict insert
  semantics (first position, last value wins).
-/

/-- A Python value as far as the demo's `json` usage observes it.
`other` models any object that is not JSON-serializable. -/
inductive PyVal where
  | null
  | bool (b : Bool)
  | int (n : Int)
  | str (s : List Char)
  | list (xs : List PyVal)
  | dict (kvs : List (List Char × PyVal))
  | other (tag : List Char)

/-- Decimal digits of a natural number, via Nat.toDigits. -/
def natRepr (n : Nat) : List Char :=
  Nat.toDigits 10 n

/-- Python `repr` of an int: decimal, with a leading minus sign when negative. -/
def intRepr : Int → List Char
  | Int.ofNat n => natRepr n
  | Int.negSucc m => '-' :: natRepr (m + 1)

/-- Lower-case hexadecimal digit. -/
def hexDig (n : Nat) : Char :=
  if n < 10 then Char.ofNat (48 + n) else Char.ofNat (87 + n)

/-- Four-digit hexadecimal rendering used by the `\uXXXX` escapes. -/
def hex4 (n : Nat) : List Char :=
  [hexDig (n / 4096 % 16), hexDig (n / 256 % 16), hexDig (n / 16 % 16), hexDig (n % 16)]

/-- The `\uXXXX` escape of one scalar value, with a surrogate pair for
code points above 0xFFFF, as `json.dumps` emits with `ensure_ascii=True`. -/
def uEscape (c : Char) : List Char :=
  let n := c.toNat
  if n < 0x10000 then
    '\\' :: 'u' :: hex4 n
  else
    let m := n - 0x10000
    ('\\' :: 'u' :: hex4 (0xD800 + m / 0x400)) ++ ('\\' :: 'u' :: hex4 (0xDC00 + m % 0x400))

/-- Escaping of one character inside a JSON string literal, following
Python's `py_encode_basestring_ascii`: backslash, quote, the short
control escapes, and `\uXXXX` for every character outside 0x20..0x7E. -/
def escapeChar (c : Char) : List Char :=
  if c = '"' then ['\\', '"']
  else if c = '\\' then ['\\', '\\']
  else if c = '\n' then ['\\', 'n']
  else if c = '\t' then ['\\', 't']
  else if c = '\r' then ['\\', 'r']
  else if c.toNat = 8 then ['\\', 'b']
  else if c.toNat = 12 then ['\\', 'f']
  else if c.toNat < 0x20 || 0x7e < c.toNat then uEscape c
  else [c]

/-- JSON string literal for a character sequence. -/
def encodeStr (s : List Char) : List Char :=
  '"' :: s.foldr (fun c acc => escapeChar c ++ acc) ['"']

/-- Comma-space separated join, the default `json.dumps` item separator. -/
def joinComma : List (List Char) → List Char
  | [] => []
  | [s] => s
  | s :: rest => s ++ (',' :: ' ' :: joinComma rest)

mutual

/-- Model of `json.dumps(msg)` with default arguments: `Option.none`
models the `TypeError` raised on a non-serializable object. -/
def pyDumps : PyVal → Option (List Char)
  | .null => some ('n' :: 'u' :: 'l' :: 'l' :: [])
  | .bool true => some ('t' :: 'r' :: 'u' :: 'e' :: [])
  | .bool false => some ('f' :: 'a' :: 'l' :: 's' :: 'e' :: [])
  | .int n => some (intRepr n)
  | .str s => some (encodeStr s)
  | .list xs => (dumpsItems xs).map (fun ps => '[' :: (joinComma ps ++ [']']))
  | .dict kvs => (dumpsMembers kvs).map (fun ps => '\x7b' :: (joinComma ps ++ ['\x7d']))
  | .other _ => Option.none

/-- Serialize each element of a Python list. -/
def dumpsItems : List PyVal → Option (List (List Char))
  | [] => some []
  | x :: xs =>
    (pyDumps x).bind (fun sx => (dumpsItems xs).map (fun rest => sx :: rest))

/-- Serialize each key/value pair of a Python dict, with the default
key separator of a colon and one space. -/
def dumpsMembers : List (List Char × PyVal) → Option (List (List Char))
  | [] => some []
  | (k, v) :: xs =>
    (pyDumps v).bind (fun sv =>
      (dumpsMembers xs).map (fun rest => (encodeStr k ++ (':' :: ' ' :: sv)) :: rest))

end

/-- JSON whitespace characters, as accepted between tokens by `json.loads`. -/
def isWs (c : Char) : Bool :=
  c = ' ' || c = '\t' || c = '\n' || c = '\r'

/-- Python `int()` whitespace (ASCII part), stripped around the literal. -/
def isPyWs (c : Char) : Bool :=
  c = ' ' || c = '\t' || c = '\n' || c = '\r' || c.toNat = 11 || c.toNat = 12

/-- Numeric value of a decimal digit character. -/
def digitVal (c : Char) : Nat :=
  c.toNat - 48

/-- Remaining digits of a Python int literal: decimal digits, with single
underscores allowed between digits (`int("1_0") = 10`), as in Python 3. -/
def pyDigitsRest (acc : Nat) : List Char → Option Nat
  | [] => some acc
  | '_' :: c :: rest =>
    if c.isDigit then pyDigitsRest (acc * 10 + digitVal c) rest else Option.none
  | c :: rest =>
    if c.isDigit then pyDigitsRest (acc * 10 + digitVal c) rest else Option.none

/-- Digit part of a Python int literal: at least one digit, underscores
only between digits. -/
def pyIntCore : List Char → Option Nat
  | [] => Option.none
  | c :: rest => if c.isDigit then pyDigitsRest (digitVal c) rest else Option.none

/-- Strip Python int() whitespace from both ends. -/
def stripPyWs (s : List Char) : List Char :=
  ((s.dropWhile isPyWs).reverse.dropWhile isPyWs).reverse

/-- Model of Python `int(s)` on ASCII input: optional surrounding
whitespace, optional sign, decimal digits with optional underscores.
(Non-ASCII digit support of CPython is outside the embedding.)
`Option.none` models the raised `ValueError`. -/
def pyInt (s : List Char) : Option Int :=
  match stripPyWs s with
  | '-' :: rest => (pyIntCore rest).map (fun n => -(n : Int))
  | '+' :: rest => (pyIntCore rest).map (fun n => (n : Int))
  | t => (pyIntCore t).map (fun n => (n : Int))

/-- The agent's address-parsing errors: each constructor corresponds to one
of the `ValueError`s `parse_addr` can raise (in the spec's taxonomy, the
first is UnsupportedTransport, the other two are both MalformedAddress). -/
inductive AddrErr where
  | unsupportedTransport
  | malformedNoColon
  | malformedBadPort
deriving DecidableEq

/-- The spec's MalformedAddress covers both the missing-separator and the
non-numeric-port `ValueError`s. -/
def AddrErr.isMalformedAddress : AddrErr → Bool
  | .unsupportedTransport => false
  | .malformedNoColon => true
  | .malformedBadPort => true

/-- Strip a leading literal `tcp:`, as `raw[4:]` after `startswith("tcp:")`. -/
def stripTcp : List Char → List Char
  | 't' :: 'c' :: 'p' :: ':' :: rest => rest
  | s => s

/-- Test for a leading literal `unix:`. -/
def startsWithUnix : List Char → Bool
  | 'u' :: 'n' :: 'i' :: 'x' :: ':' :: _ => true
  | _ => false

/-- Split at the last colon, as Python's `raw.rsplit(":", 1)` when a colon
exists; `Option.none` when the string has no colon. -/
def splitLastColon : List Char → Option (List Char × List Char)
  | [] => Option.none
  | c :: rest =>
    match splitLastColon rest with
    | some (h, p) => some (c :: h, p)
    | Option.none => if c = ':' then some ([], rest) else Option.none

/-- Model of `parse_addr(raw)`: strip `tcp:`, reject `unix:`, require a
colon, split at the last colon and parse the port with `int()`. -/
def parse_addr (raw : List Char) : Except AddrErr (List Char × Int) :=
  let r := stripTcp raw
  if startsWithUnix r then
    Except.error AddrErr.unsupportedTransport
  else
    match splitLastColon r with
    | Option.none => Except.error AddrErr.malformedNoColon
    | some (host, portStr) =>
      match pyInt portStr with
      | some n => Except.ok (host, n)
      | Option.none => Except.error AddrErr.malformedBadPort

/-- Skip leading JSON whitespace. -/
def skipWs : List Char → List Char
  | [] => []
  | c :: s => if isWs c then skipWs s else c :: s

/-- Match an exact literal tail (used for null/true/false keywords). -/
def expectLit : List Char → List Char → Option (List Char)
  | [], s => some s
  | l :: lit, c :: s => if c = l then expectLit lit s else Option.none
  | _ :: _, [] => Option.none

/-- Value of a hexadecimal digit. -/
def hexVal (c : Char) : Option Nat :=
  if c.isDigit then some (c.toNat - 48)
  else if 97 ≤ c.toNat && c.toNat ≤ 102 then some (c.toNat - 87)
  else if 65 ≤ c.toNat && c.toNat ≤ 70 then some (c.toNat - 55)
  else Option.none

/-- Value of a four-hex-digit escape. -/
def hex4Val (h1 h2 h3 h4 : Char) : Option Nat :=
  (hexVal h1).bind (fun a =>
    (hexVal h2).bind (fun b =>
      (hexVal h3).bind (fun c =>
        (hexVal h4).map (fun d => ((a * 16 + b) * 16 + c) * 16 + d))))

/-- The single-character JSON escapes. -/
def escSimple (c : Char) : Option Char :=
  if c = '"' then some '"'
  else if c = '\\' then some '\\'
  else if c = '/' then some '/'
  else if c = 'b' then some (Char.ofNat 8)
  else if c = 'f' then some (Char.ofNat 12)
  else if c = 'n' then some '\n'
  else if c = 'r' then some '\r'
  else if c = 't' then some '\t'
  else Option.none

/-- Four hexadecimal digits of a `\uXXXX` escape, after the `u`. -/
def readU4 : List Char → Option (Nat × List Char)
  | h1 :: h2 :: h3 :: h4 :: rest => (hex4Val h1 h2 h3 h4).map (fun n => (n, rest))
  | _ => Option.none

/-- A low-surrogate escape `\uXXXX` with XXXX in 0xDC00..0xDFFF,
expected right after a high surrogate. -/
def readLowSur : List Char → Option (Nat × List Char)
  | a :: e :: restU =>
    if a = '\\' && e = 'u' then
      (readU4 restU).bind (fun p =>
        if 0xDC00 ≤ p.1 && p.1 ≤ 0xDFFF then some p else Option.none)
    else Option.none
  | _ => Option.none

/-- Body of a JSON string literal, after the opening quote: returns the
decoded characters and the input after the closing quote. Unescaped
control characters are rejected (Python's default strict mode); a
`\uXXXX` high surrogate must be followed by a low surrogate (a lone
surrogate would produce a non-scalar Python str, outside the embedding);
an unknown or truncated escape is an error, as in Python. -/
def parseStrBody : Nat → List Char → Option (List Char × List Char)
  | 0, _ => Option.none
  | _ + 1, [] => Option.none
  | fuel + 1, c :: rest =>
    if c = '"' then some ([], rest)
    else if c = '\\' then
      match rest with
      | [] => Option.none
      | e :: rest2 =>
        if e = 'u' then
          (readU4 rest2).bind (fun up =>
            if 0xD800 ≤ up.1 && up.1 ≤ 0xDBFF then
              (readLowSur up.2).bind (fun lp =>
                (parseStrBody fuel lp.2).map (fun p =>
                  (Char.ofNat (0x10000 + (up.1 - 0xD800) * 0x400 + (lp.1 - 0xDC00)) :: p.1, p.2)))
            else if 0xDC00 ≤ up.1 && up.1 ≤ 0xDFFF then Option.none
            else (parseStrBody fuel up.2).map (fun p => (Char.ofNat up.1 :: p.1, p.2)))
        else
          (escSimple e).bind (fun d =>
            (parseStrBody fuel rest2).map (fun p => (d :: p.1, p.2)))
    else if c.toNat < 0x20 then Option.none
    else (parseStrBody fuel rest).map (fun p => (c :: p.1, p.2))

/-- Longest run of decimal digits, accumulated left to right. -/
def takeDigits (acc : Nat) : List Char → Nat × List Char
  | [] => (acc, [])
  | c :: rest => if c.isDigit then takeDigits (acc * 10 + digitVal c) rest else (acc, c :: rest)

/-- Unsigned part of a JSON number: a single 0, or a nonzero digit
followed by any digits, mirroring the `(?:0|[1-9]\d*)` of Python's
json NUMBER_RE (fractions and exponents are floats, outside the embedding). -/
def parseNatPart : List Char → Option (Nat × List Char)
  | [] => Option.none
  | '0' :: rest => some (0, rest)
  | c :: rest => if c.isDigit then some (takeDigits (digitVal c) rest) else Option.none

/-- A JSON integer: optional minus sign then the digit part. -/
def parseNumber : List Char → Option (PyVal × List Char)
  | [] => Option.none
  | c :: rest =>
    if c = '-' then (parseNatPart rest).map (fun p => (PyVal.int (-(p.1 : Int)), p.2))
    else (parseNatPart (c :: rest)).map (fun p => (PyVal.int (p.1 : Int), p.2))

/-- Python dict item assignment `d[k] = v`: an existing key keeps its
position and takes the new value, a new key is appended. -/
def dictSet (d : List (List Char × PyVal)) (k : List Char) (v : PyVal) :
    List (List Char × PyVal) :=
  match d with
  | [] => [(k, v)]
  | (k0, v0) :: rest => if k0 = k then (k0, v) :: rest else (k0, v0) :: dictSet rest k v

/-- Build a Python dict from parsed members in order (last value wins). -/
def buildDict (ps : List (List Char × PyVal)) : List (List Char × PyVal) :=
  ps.foldl (fun d p => dictSet d p.1 p.2) []

mutual

/-- One JSON value, starting at a non-whitespace character: dispatch on
the first character as Python's scanner does. The fuel argument only
bounds recursion depth; it is chosen large enough by pyLoads. -/
def parseValue : Nat → List Char → Option (PyVal × List Char)
  | 0, _ => Option.none
  | _ + 1, [] => Option.none
  | fuel + 1, c :: rest =>
    if c = 'n' then (expectLit ('u' :: 'l' :: 'l' :: []) rest).map (fun r => (PyVal.null, r))
    else if c = 't' then (expectLit ('r' :: 'u' :: 'e' :: []) rest).map (fun r => (PyVal.bool true, r))
    else if c = 'f' then (expectLit ('a' :: 'l' :: 's' :: 'e' :: []) rest).map (fun r => (PyVal.bool false, r))
    else if c = '"' then (parseStrBody (fuel + 1) rest).map (fun p => (PyVal.str p.1, p.2))
    else if c = '[' then
      match skipWs rest with
      | [] => Option.none
      | d :: r =>
        if d = ']' then some (PyVal.list [], r)
        else (parseItems fuel (d :: r)).map (fun p => (PyVal.list p.1, p.2))
    else if c = '\x7b' then
      match skipWs rest with
      | [] => Option.none
      | d :: r =>
        if d = '\x7d' then some (PyVal.dict [], r)
        else (parseMembers fuel (d :: r)).map (fun p => (PyVal.dict (buildDict p.1), p.2))
    else if c = '-' || c.isDigit then parseNumber (c :: rest)
    else Option.none

/-- Elements of a non-empty JSON array, starting at the first element
(whitespace already skipped), up to and including the closing bracket. -/
def parseItems : Nat → List Char → Option (List PyVal × List Char)
  | 0, _ => Option.none
  | fuel + 1, s =>
    (parseValue fuel s).bind (fun p =>
      match skipWs p.2 with
      | [] => Option.none
      | d :: r2 =>
        if d = ',' then (parseItems fuel (skipWs r2)).map (fun q => (p.1 :: q.1, q.2))
        else if d = ']' then some ([p.1], r2)
        else Option.none)

/-- Members of a non-empty JSON object, starting at the first key
(whitespace already skipped), up to and including the closing brace. -/
def parseMembers : Nat → List Char → Option (List (List Char × PyVal) × List Char)
  | 0, _ => Option.none
  | _ + 1, [] => Option.none
  | fuel + 1, c :: rest =>
    if c = '"' then
      (parseStrBody (fuel + 1) rest).bind (fun kp =>
        match skipWs kp.2 with
        | [] => Option.none
        | d :: r2 =>
          if d = ':' then
            (parseValue fuel (skipWs r2)).bind (fun vp =>
              match skipWs vp.2 with
              | [] => Option.none
              | d2 :: r4 =>
                if d2 = ',' then
                  (parseMembers fuel (skipWs r4)).map (fun q => ((kp.1, vp.1) :: q.1, q.2))
                else if d2 = '\x7d' then some ([(kp.1, vp.1)], r4)
                else Option.none)
          else Option.none)
    else Option.none

end

/-- Model of `json.loads(s)`: skip leading whitespace, parse one value,
skip trailing whitespace, and reject any trailing garbage ("Extra data").
`Option.none` models the raised `json.JSONDecodeError`. -/
def pyLoads (s : List Char) : Option PyVal :=
  match parseValue (2 * s.length + 2) (skipWs s) with
  | some p => if skipWs p.2 = [] then some p.1 else Option.none
  | Option.none => Option.none

/-- The client's view of the connection's file object `sock_file`:
`inbox` holds every byte the peer will deliver before it closes the
stream (reading past it sees end-of-file), `buffer` is the unflushed
write buffer, and `wire` is what has actually been transmitted. -/
structure Conn where
  inbox : List Char
  buffer : List Char
  wire : List Char

/-- The errors `send` can raise: `TypeError` from `json.dumps`, the
`RuntimeError("connection closed")`, and `json.JSONDecodeError`. -/
inductive SendErr where
  | typeError
  | connectionClosed
  | malformedResponse
deriving DecidableEq

/-- Observable I/O actions of one `send` call, in order. -/
inductive Ev where
  | write (bytes : List Char)
  | flush
  | readLine (bytes : List Char)

/-- `sock_file.readline()`: the prefix up to and including the first
newline, or everything that remains when the peer closed without sending
one (the empty list at end-of-file). Returns (line, rest of inbox). -/
def readLine : List Char → List Char × List Char
  | [] => ([], [])
  | c :: rest =>
    if c = '\n' then (['\n'], rest)
    else
      let p := readLine rest
      (c :: p.1, p.2)

/-- Model of `send(sock_file, msg)`: serialize, append one newline byte,
write, flush, read one line, fail on an empty read, otherwise decode the
line (terminator included, as the source passes the whole line to
`json.loads`). Returns the result, the connection state after the call,
and the trace of I/O events performed. -/
def send (msg : PyVal) (conn : Conn) : Except SendErr PyVal × Conn × List Ev :=
  match pyDumps msg with
  | Option.none => (Except.error SendErr.typeError, conn, [])
  | some body =>
    let payload := body ++ ['\n']
    let afterWrite : Conn := ⟨conn.inbox, conn.buffer ++ payload, conn.wire⟩
    let afterFlush : Conn := ⟨afterWrite.inbox, [], afterWrite.wire ++ afterWrite.buffer⟩
    let lr := readLine afterFlush.inbox
    let afterRead : Conn := ⟨lr.2, afterFlush.buffer, afterFlush.wire⟩
    let evs := [Ev.write payload, Ev.flush, Ev.readLine lr.1]
    if lr.1 = [] then (Except.error SendErr.connectionClosed, afterRead, evs)
    else
      match pyLoads lr.1 with
      | some v => (Except.ok v, afterRead, evs)
      | Option.none => (Except.error SendErr.malformedResponse, afterRead, evs)

theorem readLine_nil : readLine [] = ([], []) := rfl

theorem readLine_of_terminated (content rest : List Char) (h : ('\n' : Char) ∉ content) :
    readLine (content ++ '\n' :: rest) = (content ++ ['\n'], rest) := by
  induction content with
  | nil => simp [readLine]
  | cons c cs ih =>
    have hc : c ≠ '\n' := fun hc => h (hc ▸ List.mem_cons_self c cs)
    have hcs : ('\n' : Char) ∉ cs := fun hm => h (List.mem_cons_of_mem c hm)
    simp [readLine, hc, ih hcs]

theorem readLine_of_unterminated (s : List Char) (h : ('\n' : Char) ∉ s) :
    readLine s = (s, []) := by
  induction s with
  | nil => rfl
  | cons c cs ih =>
    have hc : c ≠ '\n' := fun hc => h (hc ▸ List.mem_cons_self c cs)
    have hcs : ('\n' : Char) ∉ cs := fun hm => h (List.mem_cons_of_mem c hm)
    simp [readLine, hc, ih hcs]

theorem readLine_fst_ne_nil (s : List Char) (h : s ≠ []) : (readLine s).1 ≠ [] := by
  match s with
  | [] => exact absurd rfl h
  | c :: rest =>
    simp only [readLine]
    by_cases hc : c = '\n' <;> simp [hc]

theorem send_eq (msg : PyVal) (body : List Char) (conn : Conn)
    (h : pyDumps msg = some body) :
    send msg conn =
      ((if (readLine conn.inbox).1 = [] then Except.error SendErr.connectionClosed
        else
          match pyLoads (readLine conn.inbox).1 with
          | some v => Except.ok v
          | Option.none => Except.error SendErr.malformedResponse),
       ⟨(readLine conn.inbox).2, [], conn.wire ++ conn.buffer ++ (body ++ ['\n'])⟩,
       [Ev.write (body ++ ['\n']), Ev.flush, Ev.readLine (readLine conn.inbox).1]) := by
  simp only [send, h, List.append_assoc]
  split
  · rfl
  · split <;> rfl

/-- The scripted hello request of the demo driver, used as a concrete input. -/
def wReq : PyVal :=
  PyVal.dict [("id".toList, PyVal.int 1), ("type".toList, PyVal.str "hello".toList)]

/-- Its single-line JSON encoding. -/
def wReqBody : List Char :=
  (pyDumps wReq).getD []

/-- C9: if the request object is not JSON-serializable, `send` raises during
serialization before any byte is written to or read from the connection:
the connection state is returned unchanged and the I/O trace is empty. -/
theorem send_serialization_atomic (msg : PyVal) (conn : Conn)
    (h : pyDumps msg = Option.none) :
    send msg conn = (Except.error SendErr.typeError, conn, []) := by
  simp [send, h]

theorem send_serialization_atomic_witness :
    pyDumps (PyVal.other ('s' :: [])) = Option.none ∧
    send (PyVal.other ('s' :: [])) ⟨('x' :: []), ('b' :: []), ('w' :: [])⟩ =
      (Except.error SendErr.typeError, ⟨('x' :: []), ('b' :: []), ('w' :: [])⟩, []) :=
  ⟨rfl, send_serialization_atomic _ _ rfl⟩

/-- C8: the result of `send` does not depend on the request beyond its
serializability — in particular no response-id/request-id correlation or
validation happens: two calls with any two serializable requests against
the same incoming bytes return the same response value. -/
theorem send_no_id_correlation (m1 m2 : PyVal) (s1 s2 : List Char) (c1 c2 : Conn)
    (h1 : pyDumps m1 = some s1) (h2 : pyDumps m2 = some s2)
    (hin : c1.inbox = c2.inbox) :
    (send m1 c1).1 = (send m2 c2).1 := by
  rw [send_eq m1 s1 c1 h1, send_eq m2 s2 c2 h2, hin]

/-- A response line carrying id 2, while the request carries id 1 or 99. -/
def wRespId2 : List Char :=
  "\x7b\"id\": 2, \"ok\": true\x7d\n".toList

/-- A request with id 99, otherwise like the hello request. -/
def wReq99 : PyVal :=
  PyVal.dict [("id".toList, PyVal.int 99), ("type".toList, PyVal.str "hello".toList)]

theorem send_no_id_correlation_witness :
    pyDumps wReq = some wReqBody ∧
    pyDumps wReq99 = some ((pyDumps wReq99).getD []) ∧
    (send wReq ⟨wRespId2, [], []⟩).1 = (send wReq99 ⟨wRespId2, [], []⟩).1 ∧
    (send wReq ⟨wRespId2, [], []⟩).1 =
      Except.ok (PyVal.dict [("id".toList, PyVal.int 2), ("ok".toList, PyVal.bool true)]) :=
  ⟨rfl, rfl, send_no_id_correlation wReq wReq99 wReqBody ((pyDumps wReq99).getD [])
    ⟨wRespId2, [], []⟩ ⟨wRespId2, [], []⟩ rfl rfl rfl, rfl⟩

/-- C10: `send` raises its connection-closed error exactly when the line
read comes back empty (end of stream with zero bytes); a line consisting
of only the newline terminator is instead passed to the JSON decoder and
fails as undecodable JSON, not as a closed connection. -/
theorem send_closed_iff_empty_read (msg : PyVal) (body : List Char) (conn : Conn)
    (h : pyDumps msg = some body) :
    ((send msg conn).1 = Except.error SendErr.connectionClosed ↔ conn.inbox = []) ∧
    (∀ rest, conn.inbox = '\n' :: rest →
      (send msg conn).1 = Except.error SendErr.malformedResponse) := by
  have hs := send_eq msg body conn h
  constructor
  · constructor
    · intro hr
      by_contra hne
      have h1 : (readLine conn.inbox).1 ≠ [] := readLine_fst_ne_nil _ hne
      rw [hs] at hr
      simp only [h1, if_neg, reduceCtorEq] at hr
      cases hp : pyLoads (readLine conn.inbox).1 <;> simp [hp] at hr
    · intro hin
      rw [hs]
      simp [hin, readLine]
  · intro rest hin
    have hrl : readLine conn.inbox = (['\n'], rest) := by
      rw [hin]; simp [readLine]
    rw [hs, hrl]
    simp [show pyLoads ['\n'] = Option.none from rfl]

theorem send_closed_iff_empty_read_witness :
    pyDumps wReq = some wReqBody ∧
    ((send wReq ⟨[], [], []⟩).1 = Except.error SendErr.connectionClosed ↔ ([] : List Char) = []) ∧
    (send wReq ⟨['\n'], [], []⟩).1 = Except.error SendErr.malformedResponse :=
  ⟨rfl, (send_closed_iff_empty_read wReq wReqBody ⟨[], [], []⟩ rfl).1,
    (send_closed_iff_empty_read wReq wReqBody ⟨['\n'], [], []⟩ rfl).2 [] rfl⟩

/-- C2 counterexample: the peer closes after delivering only the partial,
unterminated line `42`. The claim demands a connection-closed failure;
the code instead decodes the partial line and returns it as a response. -/
theorem send_partial_line_cex :
    (send wReq ⟨('4' :: '2' :: []), [], []⟩).1 = Except.ok (PyVal.int 42) ∧
    (send wReq ⟨('4' :: '2' :: []), [], []⟩).1 ≠ Except.error SendErr.connectionClosed := by
  constructor
  · rfl
  · intro hcontra
    have : Except.ok (PyVal.int 42) = (Except.error SendErr.connectionClosed : Except SendErr PyVal) :=
      (show (send wReq ⟨('4' :: '2' :: []), [], []⟩).1 = Except.ok (PyVal.int 42) from rfl) ▸ hcontra
    exact Except.noConfusion this

/-- C2 amended: the connection-closed error is raised only on an empty
read (the peer closed and zero bytes remain); when the peer closes after
a partial unterminated line, that partial line is passed to the JSON
decoder like any response, yielding its decoded value or a
MalformedResponse error — never the connection-closed error. -/
theorem send_partial_line_decoded (msg : PyVal) (body : List Char) (conn : Conn)
    (h : pyDumps msg = some body) (hne : conn.inbox ≠ [])
    (hnl : ('\n' : Char) ∉ conn.inbox) :
    (send msg conn).1 =
      (match pyLoads conn.inbox with
       | some v => Except.ok v
       | Option.none => Except.error SendErr.malformedResponse) ∧
    (send msg conn).1 ≠ Except.error SendErr.connectionClosed := by
  have hrl : readLine conn.inbox = (conn.inbox, []) := readLine_of_unterminated _ hnl
  rw [send_eq msg body conn h, hrl]
  simp only [hne, if_neg, ne_eq]
  cases hp : pyLoads conn.inbox <;> simp [hp]

theorem send_partial_line_decoded_witness :
    pyDumps wReq = some wReqBody ∧
    (('4' : Char) :: '2' :: []) ≠ [] ∧
    ('\n' : Char) ∉ (('4' : Char) :: '2' :: []) ∧
    (send wReq ⟨('4' :: '2' :: []), [], []⟩).1 =
      (match pyLoads (('4' : Char) :: '2' :: []) with
       | some v => Except.ok v
       | Option.none => Except.error SendErr.malformedResponse) :=
  ⟨rfl, by simp, by decide,
    (send_partial_line_decoded wReq wReqBody ⟨('4' :: '2' :: []), [], []⟩ rfl
      (by simp) (by decide)).1⟩

/-- C5: during a call the complete frame is placed on the wire by the
flush before any byte is read — the trace is exactly one write of the
frame, one flush, then one line read; the write buffer is empty and the
wire holds exactly the old contents plus the frame; exactly the first
line is consumed from the incoming stream (no read-ahead); and two
sequential calls produce strictly sequential traces, the second write
coming only after the first response line has been fully consumed. -/
theorem send_io_discipline (m1 m2 : PyVal) (s1 s2 : List Char) (conn : Conn)
    (h1 : pyDumps m1 = some s1) (h2 : pyDumps m2 = some s2) :
    (send m1 conn).2.2 =
      [Ev.write (s1 ++ ['\n']), Ev.flush, Ev.readLine (readLine conn.inbox).1] ∧
    (send m1 conn).2.1.wire = conn.wire ++ conn.buffer ++ (s1 ++ ['\n']) ∧
    (send m1 conn).2.1.buffer = [] ∧
    (send m1 conn).2.1.inbox = (readLine conn.inbox).2 ∧
    (send m1 conn).2.2 ++ (send m2 (send m1 conn).2.1).2.2 =
      [Ev.write (s1 ++ ['\n']), Ev.flush, Ev.readLine (readLine conn.inbox).1,
       Ev.write (s2 ++ ['\n']), Ev.flush,
       Ev.readLine (readLine (readLine conn.inbox).2).1] := by
  rw [send_eq m1 s1 conn h1]
  refine ⟨rfl, by simp [List.append_assoc], rfl, rfl, ?_⟩
  rw [send_eq m2 s2 ⟨(readLine conn.inbox).2, [], conn.wire ++ conn.buffer ++ (s1 ++ ['\n'])⟩ h2]
  rfl

theorem send_io_discipline_witness :
    pyDumps wReq = some wReqBody ∧ pyDumps wReq99 = some ((pyDumps wReq99).getD []) ∧
    (send wReq ⟨wRespId2 ++ wRespId2, [], []⟩).2.2 =
      [Ev.write (wReqBody ++ ['\n']), Ev.flush,
       Ev.readLine (readLine (wRespId2 ++ wRespId2)).1] ∧
    (send wReq ⟨wRespId2 ++ wRespId2, [], []⟩).2.1.wire =
      [] ++ [] ++ (wReqBody ++ ['\n']) :=
  ⟨rfl, rfl,
    (send_io_discipline wReq wReq99 wReqBody ((pyDumps wReq99).getD [])
      ⟨wRespId2 ++ wRespId2, [], []⟩ rfl rfl).1,
    (send_io_discipline wReq wReq99 wReqBody ((pyDumps wReq99).getD [])
      ⟨wRespId2 ++ wRespId2, [], []⟩ rfl rfl).2.1⟩

theorem splitLastColon_eq_none (s : List Char) :
    splitLastColon s = Option.none ↔ (':' : Char) ∉ s := by
  induction s with
  | nil => simp [splitLastColon]
  | cons c rest ih =>
    cases hrec : splitLastColon rest with
    | some hp =>
      have hmem : (':' : Char) ∈ rest := by
        by_contra hn
        rw [ih.mpr hn] at hrec
        cases hrec
      simp [splitLastColon, hrec, hmem]
    | none =>
      have hnm : (':' : Char) ∉ rest := ih.mp hrec
      by_cases hc : c = ':'
      · simp [splitLastColon, hrec, hc]
      · have hcs : ¬(':' : Char) = c := fun h => hc h.symm
        simp [splitLastColon, hrec, hc, hnm, hcs]

theorem splitLastColon_eq_some (s : List Char) : ∀ host p,
    splitLastColon s = some (host, p) ↔
      (s = host ++ ':' :: p ∧ (':' : Char) ∉ p) := by
  induction s with
  | nil =>
    intro host p
    constructor
    · intro h; cases h
    · rintro ⟨h, -⟩; exact absurd h (by simp)
  | cons c rest ih =>
    intro host p
    constructor
    · intro h
      simp only [splitLastColon] at h
      cases hrec : splitLastColon rest with
      | some hp =>
        obtain ⟨h1, p1⟩ := hp
        rw [hrec] at h
        simp only [Option.some.injEq, Prod.mk.injEq] at h
        obtain ⟨hh, hp1⟩ := h
        obtain ⟨hr, hnp⟩ := (ih h1 p1).mp hrec
        subst hh; subst hp1
        exact ⟨by simp [hr], hnp⟩
      | none =>
        rw [hrec] at h
        by_cases hc : c = ':'
        · rw [if_pos hc] at h
          simp only [Option.some.injEq, Prod.mk.injEq] at h
          obtain ⟨hh, hp⟩ := h
          subst hh; subst hp; subst hc
          exact ⟨rfl, (splitLastColon_eq_none rest).mp hrec⟩
        · rw [if_neg hc] at h
          cases h
    · rintro ⟨hs, hnp⟩
      cases host with
      | nil =>
        simp only [List.nil_append, List.cons.injEq] at hs
        obtain ⟨hc, hr⟩ := hs
        subst hc
        have hnone : splitLastColon rest = Option.none :=
          (splitLastColon_eq_none rest).mpr (hr ▸ hnp)
        simp [splitLastColon, hnone]
        exact hr
      | cons c0 host' =>
        simp only [List.cons_append, List.cons.injEq] at hs
        obtain ⟨hc, hr⟩ := hs
        have hsome : splitLastColon rest = some (host', p) :=
          (ih host' p).mpr ⟨hr, hnp⟩
        simp [splitLastColon, hsome, hc]

/-- C3 counterexample: `unix:9000` fits the claim's hypothesis — no `tcp:`
prefix to strip, the remainder contains a colon, and the substring after
the last colon is numeric — so the claim requires the result
(host `unix`, port 9000); the code instead rejects it as an unsupported
transport. -/
theorem parse_addr_unix_cex :
    parse_addr ("unix:9000".toList) = Except.error AddrErr.unsupportedTransport ∧
    stripTcp ("unix:9000".toList) = "unix:9000".toList ∧
    splitLastColon ("unix:9000".toList) = some ("unix".toList, "9000".toList) ∧
    pyInt ("9000".toList) = some 9000 :=
  ⟨rfl, rfl, rfl, rfl⟩

/-- C3 amended: for every input whose remainder after optional `tcp:`
stripping does not itself begin with `unix:`, contains at least one
colon, and has a numeric substring after the last colon, `parse_addr`
splits at the last colon and returns (host, parsed port), the host
possibly empty. -/
theorem parse_addr_split_last_colon
    (raw host portStr : List Char) (n : Int)
    (hu : startsWithUnix (stripTcp raw) = false)
    (hsplit : stripTcp raw = host ++ ':' :: portStr)
    (hlast : (':' : Char) ∉ portStr)
    (hport : pyInt portStr = some n) :
    parse_addr raw = Except.ok (host, n) := by
  have hs : splitLastColon (stripTcp raw) = some (host, portStr) :=
    (splitLastColon_eq_some _ host portStr).mpr ⟨hsplit, hlast⟩
  simp [parse_addr, hu, hs, hport]

theorem parse_addr_split_last_colon_witness :
    startsWithUnix (stripTcp ("tcp:fe80::1:9000".toList)) = false ∧
    stripTcp ("tcp:fe80::1:9000".toList) = "fe80::1".toList ++ ':' :: "9000".toList ∧
    (':' : Char) ∉ "9000".toList ∧
    pyInt ("9000".toList) = some 9000 ∧
    parse_addr ("tcp:fe80::1:9000".toList) = Except.ok ("fe80::1".toList, 9000) :=
  ⟨rfl, rfl, by decide, rfl,
    parse_addr_split_last_colon ("tcp:fe80::1:9000".toList) ("fe80::1".toList)
      ("9000".toList) 9000 rfl rfl (by decide) rfl⟩

/-- C4 counterexample: `tcp:unix:1:9000` does not begin with `unix:`, its
remainder after stripping `tcp:` contains colons, and the substring after
the last colon is numeric, so under the claim `parse_addr` may not fail —
yet the code fails with the unsupported-transport error, because the
remainder after stripping begins with `unix:`. -/
theorem parse_addr_only_conditions_cex :
    parse_addr ("tcp:unix:1:9000".toList) = Except.error AddrErr.unsupportedTransport ∧
    startsWithUnix ("tcp:unix:1:9000".toList) = false ∧
    splitLastColon (stripTcp ("tcp:unix:1:9000".toList)) =
      some ("unix:1".toList, "9000".toList) ∧
    pyInt ("9000".toList) = some 9000 :=
  ⟨rfl, rfl, rfl, rfl⟩

/-- C4 amended: `parse_addr` fails with UnsupportedTransport exactly when
the remainder after optional `tcp:` stripping begins with `unix:` (so
`tcp:unix:...` is also rejected); otherwise it fails with one of the two
MalformedAddress errors exactly when the remainder has no colon, or the
substring after its last colon is not numeric; and these are the only
failures. -/
theorem parse_addr_failure_characterization (raw : List Char) :
    (parse_addr raw = Except.error AddrErr.unsupportedTransport ↔
      startsWithUnix (stripTcp raw) = true) ∧
    (parse_addr raw = Except.error AddrErr.malformedNoColon ↔
      startsWithUnix (stripTcp raw) = false ∧ (':' : Char) ∉ stripTcp raw) ∧
    (parse_addr raw = Except.error AddrErr.malformedBadPort ↔
      startsWithUnix (stripTcp raw) = false ∧
      (∃ host portStr, splitLastColon (stripTcp raw) = some (host, portStr) ∧
        pyInt portStr = Option.none)) ∧
    ((∃ e, parse_addr raw = Except.error e ∧ e.isMalformedAddress = true) ↔
      startsWithUnix (stripTcp raw) = false ∧
      ((':' : Char) ∉ stripTcp raw ∨
        ∃ host portStr, splitLastColon (stripTcp raw) = some (host, portStr) ∧
          pyInt portStr = Option.none)) := by
  by_cases hu : startsWithUnix (stripTcp raw) = true
  · refine ⟨by simp [parse_addr, hu], by simp [parse_addr, hu], by simp [parse_addr, hu], ?_⟩
    constructor
    · rintro ⟨e, he, hm⟩
      simp [parse_addr, hu] at he
      rw [← he] at hm
      cases hm
    · rintro ⟨hfalse, -⟩
      rw [hu] at hfalse
      cases hfalse
  · have hu' : startsWithUnix (stripTcp raw) = false := by
      cases h : startsWithUnix (stripTcp raw)
      · rfl
      · exact absurd h hu
    cases hrec : splitLastColon (stripTcp raw) with
    | none =>
      have hnc : (':' : Char) ∉ stripTcp raw := (splitLastColon_eq_none _).mp hrec
      refine ⟨?_, ?_, ?_, ?_⟩
      · simp [parse_addr, hu', hrec]
      · simp [parse_addr, hu', hrec, hnc]
      · simp [parse_addr, hu', hrec]
      · constructor
        · intro _
          exact ⟨hu', Or.inl hnc⟩
        · intro _
          exact ⟨AddrErr.malformedNoColon, by simp [parse_addr, hu', hrec], rfl⟩
    | some hp =>
      obtain ⟨host0, port0⟩ := hp
      have hcol : (':' : Char) ∈ stripTcp raw := by
        by_contra hn
        rw [(splitLastColon_eq_none _).mpr hn] at hrec
        cases hrec
      cases hpi : pyInt port0 with
      | none =>
        have hbad : parse_addr raw = Except.error AddrErr.malformedBadPort := by
          simp [parse_addr, hu', hrec, hpi]
        refine ⟨?_, ?_, ?_, ?_⟩
        · simp [hbad, hu']
        · simp [hbad, hcol]
        · rw [hbad]
          constructor
          · intro _
            exact ⟨hu', host0, port0, rfl, hpi⟩
          · intro _
            rfl
        · constructor
          · intro _
            exact ⟨hu', Or.inr ⟨host0, port0, rfl, hpi⟩⟩
          · intro _
            exact ⟨AddrErr.malformedBadPort, hbad, rfl⟩
      | some n =>
        have hok : parse_addr raw = Except.ok (host0, n) := by
          simp [parse_addr, hu', hrec, hpi]
        refine ⟨?_, ?_, ?_, ?_⟩
        · simp [hok, hu']
        · simp [hok, hcol]
        · rw [hok]
          constructor
          · intro h; cases h
          · rintro ⟨-, h1, p1, hsp, hpn⟩
            injection hsp with h3
            have h5 : port0 = p1 := congrArg Prod.snd h3
            rw [← h5, hpi] at hpn
            exact Option.noConfusion hpn
        · constructor
          · rintro ⟨e, he, -⟩
            rw [hok] at he
            cases he
          · rintro ⟨-, hcase⟩
            cases hcase with
            | inl hnc => exact absurd hcol hnc
            | inr hex =>
              obtain ⟨h1, p1, hsp, hpn⟩ := hex
              injection hsp with h3
              have h5 : port0 = p1 := congrArg Prod.snd h3
              rw [← h5, hpi] at hpn
              exact Option.noConfusion hpn

/-- C6 counterexample: `parse_addr` happily returns port 70000, above
65535, because the code performs no range check on `int(port)`. -/
theorem parse_addr_port_range_cex :
    parse_addr ("h:70000".toList) = Except.ok ("h".toList, 70000) ∧
    ¬((70000 : Int) ≤ 65535) :=
  ⟨rfl, by decide⟩

/-- C6 amended: the port of a successfully parsed address is exactly
whatever Python `int()` makes of the substring after the last colon —
no range validation at all, so negative ports (the sign is accepted by
`int()`) and ports above 65535 are returned. -/
theorem parse_addr_port_is_pyInt :
    (∀ raw host port, parse_addr raw = Except.ok (host, port) →
      ∃ portStr, splitLastColon (stripTcp raw) = some (host, portStr) ∧
        pyInt portStr = some port) ∧
    parse_addr ("h:-1".toList) = Except.ok ("h".toList, -1) ∧
    parse_addr ("h:70000".toList) = Except.ok ("h".toList, 70000) := by
  refine ⟨?_, rfl, rfl⟩
  intro raw host port h
  by_cases hu : startsWithUnix (stripTcp raw) = true
  · simp [parse_addr, hu] at h
  · have hu' : startsWithUnix (stripTcp raw) = false := by
      cases hx : startsWithUnix (stripTcp raw)
      · rfl
      · exact absurd hx hu
    cases hrec : splitLastColon (stripTcp raw) with
    | none => simp [parse_addr, hu', hrec] at h
    | some hp =>
      obtain ⟨host0, port0⟩ := hp
      cases hpi : pyInt port0 with
      | none => simp [parse_addr, hu', hrec, hpi] at h
      | some n =>
        have hok : parse_addr raw = Except.ok (host0, n) := by
          simp [parse_addr, hu', hrec, hpi]
        rw [hok] at h
        injection h with h2
        have hh : host0 = host := congrArg Prod.fst h2
        have hn : n = port := congrArg Prod.snd h2
        exact ⟨port0, by rw [← hh], by rw [← hn]; exact hpi⟩

theorem parse_addr_port_is_pyInt_witness :
    (∃ portStr, splitLastColon (stripTcp ("h:-1".toList)) = some ("h".toList, portStr) ∧
      pyInt portStr = some (-1)) ∧
    (∃ portStr, splitLastColon (stripTcp ("h:70000".toList)) = some ("h".toList, portStr) ∧
      pyInt portStr = some 70000) :=
  ⟨parse_addr_port_is_pyInt.1 ("h:-1".toList) ("h".toList) (-1) rfl,
   parse_addr_port_is_pyInt.1 ("h:70000".toList) ("h".toList) 70000 rfl⟩

/-- A character sequence consisting solely of JSON whitespace. -/
def wsOnly (w : List Char) : Prop :=
  ∀ c ∈ w, isWs c = true

theorem isWs_cases (c : Char) (h : isWs c = true) :
    c = ' ' ∨ c = '\t' ∨ c = '\n' ∨ c = '\r' := by
  simp only [isWs, Bool.or_eq_true, decide_eq_true_eq] at h
  tauto

theorem hexVal_ws (c : Char) (h : isWs c = true) : hexVal c = Option.none := by
  rcases isWs_cases c h with rfl | rfl | rfl | rfl <;> decide

theorem escSimple_ws (c : Char) (h : isWs c = true) : escSimple c = Option.none := by
  rcases isWs_cases c h with rfl | rfl | rfl | rfl <;> decide

theorem isDigit_ws (c : Char) (h : isWs c = true) : c.isDigit = false := by
  rcases isWs_cases c h with rfl | rfl | rfl | rfl <;> decide

theorem wsOnly_nil : wsOnly [] := by
  intro c hc
  cases hc

theorem wsOnly_cons_iff (c : Char) (w : List Char) :
    wsOnly (c :: w) ↔ isWs c = true ∧ wsOnly w := by
  constructor
  · intro h
    exact ⟨h c (List.mem_cons_self c w), fun d hd => h d (List.mem_cons_of_mem c hd)⟩
  · rintro ⟨hc, hw⟩ d hd
    rcases List.mem_cons.mp hd with rfl | hd'
    · exact hc
    · exact hw d hd'

theorem skipWs_wsOnly (w : List Char) (h : wsOnly w) : skipWs w = [] := by
  induction w with
  | nil => rfl
  | cons c w' ih =>
    obtain ⟨hc, hw'⟩ := (wsOnly_cons_iff c w').mp h
    simp [skipWs, hc, ih hw']

theorem skipWs_length (s : List Char) : (skipWs s).length ≤ s.length := by
  induction s with
  | nil => simp [skipWs]
  | cons c s' ih =>
    by_cases hc : isWs c
    · simp only [skipWs, hc, if_pos]
      exact ih.trans (by simp)
    · simp [skipWs, hc]

theorem skipWs_append (s t : List Char) :
    skipWs (s ++ t) = if skipWs s = [] then skipWs t else skipWs s ++ t := by
  induction s with
  | nil => simp [skipWs]
  | cons c s' ih =>
    by_cases hc : isWs c
    · simp only [List.cons_append, skipWs, hc, if_pos]
      exact ih
    · simp [skipWs, hc]

theorem parseValue_nil (f : Nat) : parseValue f [] = Option.none := by
  cases f <;> simp [parseValue]

theorem parseItems_nil (f : Nat) : parseItems f [] = Option.none := by
  cases f with
  | zero => simp [parseItems]
  | succ f' => simp [parseItems, parseValue_nil]

theorem parseMembers_nil (f : Nat) : parseMembers f [] = Option.none := by
  cases f <;> simp [parseMembers]

theorem parseValue_ws_head (f : Nat) (c : Char) (rest : List Char)
    (h : isWs c = true) : parseValue f (c :: rest) = Option.none := by
  cases f with
  | zero => simp [parseValue]
  | succ f' =>
    rcases isWs_cases c h with rfl | rfl | rfl | rfl <;>
      simp [parseValue, parseNumber, parseNatPart]

theorem parseValue_wsOnly (f : Nat) (w : List Char) (h : wsOnly w) :
    parseValue f w = Option.none := by
  cases w with
  | nil => exact parseValue_nil f
  | cons c w' => exact parseValue_ws_head f c w' ((wsOnly_cons_iff c w').mp h).1

theorem parseStrBody_wsOnly (f : Nat) (w : List Char) (h : wsOnly w) :
    parseStrBody f w = Option.none := by
  induction f generalizing w with
  | zero => simp [parseStrBody]
  | succ f' ih =>
    cases w with
    | nil => simp [parseStrBody]
    | cons c w' =>
      obtain ⟨hc, hw'⟩ := (wsOnly_cons_iff c w').mp h
      rcases isWs_cases c hc with rfl | rfl | rfl | rfl
      · simp [parseStrBody, ih w' hw']
      · simp [parseStrBody]
      · simp [parseStrBody]
      · simp [parseStrBody]

theorem expectLit_append (lit s w : List Char)
    (hlit : ∀ l ∈ lit, isWs l = false) (hw : wsOnly w) :
    expectLit lit (s ++ w) = (expectLit lit s).map (fun r => r ++ w) := by
  induction lit generalizing s with
  | nil => simp [expectLit]
  | cons l lit' ih =>
    cases s with
    | nil =>
      cases w with
      | nil => simp [expectLit]
      | cons c w' =>
        have hc : isWs c = true := ((wsOnly_cons_iff c w').mp hw).1
        have hl : isWs l = false := hlit l (List.mem_cons_self l lit')
        have hne : ¬(c = l) := fun hcl => by rw [hcl, hl] at hc; cases hc
        simp [expectLit, hne]
    | cons c s' =>
      by_cases hcl : c = l
      · simp [expectLit, hcl, ih s' (fun x hx => hlit x (List.mem_cons_of_mem l hx))]
      · simp [expectLit, hcl]

theorem takeDigits_append (acc : Nat) (s w : List Char) (hw : wsOnly w) :
    takeDigits acc (s ++ w) = ((takeDigits acc s).1, (takeDigits acc s).2 ++ w) := by
  induction s generalizing acc with
  | nil =>
    cases w with
    | nil => simp [takeDigits]
    | cons c w' =>
      have hd : c.isDigit = false := isDigit_ws c ((wsOnly_cons_iff c w').mp hw).1
      simp [takeDigits, hd]
  | cons c s' ih =>
    by_cases hd : c.isDigit
    · simp [takeDigits, hd, ih]
    · simp [takeDigits, hd]

theorem parseNatPart_append (s w : List Char) (hw : wsOnly w) :
    parseNatPart (s ++ w) = (parseNatPart s).map (fun p => (p.1, p.2 ++ w)) := by
  cases s with
  | nil =>
    cases w with
    | nil => simp [parseNatPart]
    | cons c w' =>
      have hc : isWs c = true := ((wsOnly_cons_iff c w').mp hw).1
      have hd : c.isDigit = false := isDigit_ws c hc
      have h0 : ¬(c = '0') := by
        rcases isWs_cases c hc with rfl | rfl | rfl | rfl <;> decide
      simp [parseNatPart, h0, hd]
  | cons c s' =>
    by_cases h0 : c = '0'
    · subst h0
      simp [parseNatPart]
    · by_cases hd : c.isDigit
      · simp [parseNatPart, h0, hd, takeDigits_append (digitVal c) s' w hw]
      · simp [parseNatPart, h0, hd]

theorem parseNumber_append (s w : List Char) (hw : wsOnly w) :
    parseNumber (s ++ w) = (parseNumber s).map (fun p => (p.1, p.2 ++ w)) := by
  cases s with
  | nil =>
    cases w with
    | nil => simp [parseNumber, parseNatPart]
    | cons c w' =>
      have hc : isWs c = true := ((wsOnly_cons_iff c w').mp hw).1
      have hd : c.isDigit = false := isDigit_ws c hc
      have h0 : ¬(c = '0') := by
        rcases isWs_cases c hc with rfl | rfl | rfl | rfl <;> decide
      have hm : ¬(c = '-') := by
        rcases isWs_cases c hc with rfl | rfl | rfl | rfl <;> decide
      simp [parseNumber, parseNatPart, hm, h0, hd]
  | cons c s' =>
    by_cases hm : c = '-'
    · subst hm
      rw [List.cons_append]
      simp only [parseNumber, if_pos rfl, parseNatPart_append s' w hw]
      cases parseNatPart s' <;> simp
    · rw [List.cons_append]
      have h1 := parseNatPart_append (c :: s') w hw
      rw [List.cons_append] at h1
      simp only [parseNumber, if_neg hm]
      rw [h1]
      cases parseNatPart (c :: s') <;> simp

theorem hex4Val_ws1 (h1 h2 h3 h4 : Char) (h : isWs h1 = true) :
    hex4Val h1 h2 h3 h4 = Option.none := by
  simp [hex4Val, hexVal_ws h1 h]

theorem hex4Val_ws2 (h1 h2 h3 h4 : Char) (h : isWs h2 = true) :
    hex4Val h1 h2 h3 h4 = Option.none := by
  cases hexVal h1 <;> simp [hex4Val, hexVal_ws h2 h]

theorem hex4Val_ws3 (h1 h2 h3 h4 : Char) (h : isWs h3 = true) :
    hex4Val h1 h2 h3 h4 = Option.none := by
  cases hexVal h1 <;> cases hexVal h2 <;> simp [hex4Val, hexVal_ws h3 h]

theorem hex4Val_ws4 (h1 h2 h3 h4 : Char) (h : isWs h4 = true) :
    hex4Val h1 h2 h3 h4 = Option.none := by
  cases hexVal h1 <;> cases hexVal h2 <;> cases hexVal h3 <;>
    simp [hex4Val, hexVal_ws h4 h]

theorem readU4_append (s w : List Char) (hw : wsOnly w) :
    readU4 (s ++ w) = (readU4 s).map (fun p => (p.1, p.2 ++ w)) := by
  rcases s with _ | ⟨a1, _ | ⟨a2, _ | ⟨a3, _ | ⟨a4, rest⟩⟩⟩⟩
  · rcases w with _ | ⟨b1, _ | ⟨b2, _ | ⟨b3, _ | ⟨b4, w'⟩⟩⟩⟩ <;>
      simp only [List.nil_append, readU4]
    · rfl
    · rfl
    · rfl
    · rfl
    · rw [hex4Val_ws1 b1 b2 b3 b4 (((wsOnly_cons_iff _ _).mp hw).1)]
      rfl
  · rcases w with _ | ⟨b1, _ | ⟨b2, _ | ⟨b3, w'⟩⟩⟩ <;>
      simp only [List.cons_append, List.nil_append, readU4]
    · rfl
    · rfl
    · rfl
    · rw [hex4Val_ws2 a1 b1 b2 b3 (((wsOnly_cons_iff _ _).mp hw).1)]
      rfl
  · rcases w with _ | ⟨b1, _ | ⟨b2, w'⟩⟩ <;>
      simp only [List.cons_append, List.nil_append, readU4]
    · rfl
    · rfl
    · rw [hex4Val_ws3 a1 a2 b1 b2 (((wsOnly_cons_iff _ _).mp hw).1)]
      rfl
  · rcases w with _ | ⟨b1, w'⟩ <;>
      simp only [List.cons_append, List.nil_append, readU4]
    · rfl
    · rw [hex4Val_ws4 a1 a2 a3 b1 (((wsOnly_cons_iff _ _).mp hw).1)]
      rfl
  · simp only [List.cons_append, readU4]
    cases hex4Val a1 a2 a3 a4 <;> simp

theorem readLowSur_append (s w : List Char) (hw : wsOnly w) :
    readLowSur (s ++ w) = (readLowSur s).map (fun p => (p.1, p.2 ++ w)) := by
  rcases s with _ | ⟨a, _ | ⟨e, s'⟩⟩
  · rcases w with _ | ⟨b1, _ | ⟨b2, w'⟩⟩ <;>
      simp only [List.nil_append, readLowSur]
    · rfl
    · rfl
    · have hb1 : isWs b1 = true := ((wsOnly_cons_iff _ _).mp hw).1
      have : ¬(b1 = '\\') := by
        rcases isWs_cases b1 hb1 with rfl | rfl | rfl | rfl <;> decide
      simp [this]
  · rcases w with _ | ⟨b1, w'⟩ <;>
      simp only [List.cons_append, List.nil_append, readLowSur]
    · rfl
    · have hb1 : isWs b1 = true := ((wsOnly_cons_iff _ _).mp hw).1
      have : ¬(b1 = 'u') := by
        rcases isWs_cases b1 hb1 with rfl | rfl | rfl | rfl <;> decide
      simp [this]
  · simp only [List.cons_append, readLowSur]
    by_cases hae : a = '\\' ∧ e = 'u'
    · obtain ⟨rfl, rfl⟩ := hae
      simp only [decide_True, Bool.and_self, if_pos]
      rw [readU4_append s' w hw]
      cases readU4 s' with
      | none => rfl
      | some p =>
        simp only [Option.map_some', Option.some_bind]
        by_cases hr : (decide (0xDC00 ≤ p.1) && decide (p.1 ≤ 0xDFFF)) = true <;>
          simp [hr]
    · have hcond : ¬((a = '\\' && e = 'u') = true) := by
        simp only [Bool.and_eq_true, decide_eq_true_eq]
        exact fun hx => hae ⟨by simpa using hx.1, by simpa using hx.2⟩
      simp [hcond]

theorem parseStrBody_append (f : Nat) (s w : List Char) (hw : wsOnly w) :
    parseStrBody f (s ++ w) = (parseStrBody f s).map (fun p => (p.1, p.2 ++ w)) := by
  induction f generalizing s with
  | zero => simp [parseStrBody]
  | succ f' ih =>
    cases s with
    | nil =>
      rw [List.nil_append, parseStrBody_wsOnly (f' + 1) w hw]
      rfl
    | cons c s' =>
      rw [List.cons_append]
      by_cases hq : c = '"'
      · subst hq
        simp [parseStrBody]
      · by_cases hb : c = '\\'
        · subst hb
          cases s' with
          | nil =>
            cases w with
            | nil => simp [parseStrBody]
            | cons b w' =>
              have hbws : isWs b = true := ((wsOnly_cons_iff b w').mp hw).1
              have hbu : ¬(b = 'u') := by
                rcases isWs_cases b hbws with rfl | rfl | rfl | rfl <;> decide
              simp [parseStrBody, hbu, escSimple_ws b hbws]
          | cons e rest2 =>
            by_cases he : e = 'u'
            · subst he
              simp only [parseStrBody, if_neg (by decide : ¬('\\' : Char) = '"'),
                if_pos rfl, List.cons_append, if_pos (rfl : ('u' : Char) = 'u')]
              rw [readU4_append rest2 w hw]
              cases hr : readU4 rest2 with
              | none => rfl
              | some up =>
                simp only [Option.map_some', Option.some_bind]
                by_cases hh : (decide (0xD800 ≤ up.1) && decide (up.1 ≤ 0xDBFF)) = true
                · simp only [hh, if_pos]
                  rw [readLowSur_append up.2 w hw]
                  cases hl : readLowSur up.2 with
                  | none => rfl
                  | some lp =>
                    simp only [Option.map_some', Option.some_bind]
                    rw [ih lp.2]
                    cases parseStrBody f' lp.2 <;> simp
                · simp only [Bool.not_eq_true] at hh
                  simp only [hh, Bool.false_eq_true, if_neg, if_false]
                  by_cases hlo : (decide (0xDC00 ≤ up.1) && decide (up.1 ≤ 0xDFFF)) = true
                  · simp [hlo]
                  · simp only [Bool.not_eq_true] at hlo
                    simp only [hlo, Bool.false_eq_true, if_neg, if_false]
                    rw [ih up.2]
                    cases parseStrBody f' up.2 <;> simp
            · simp only [parseStrBody, if_neg (by decide : ¬('\\' : Char) = '"'),
                if_pos rfl, List.cons_append, if_neg he]
              cases hesc : escSimple e with
              | none => rfl
              | some d =>
                simp only [Option.some_bind]
                rw [ih rest2]
                cases parseStrBody f' rest2 <;> simp
        · by_cases hctl : c.toNat < 0x20
          · simp [parseStrBody, hq, hb, hctl]
          · simp only [parseStrBody, if_neg hq, if_neg hb, if_neg hctl]
            rw [ih s']
            cases parseStrBody f' s' <;> simp

theorem parse_append_all (f : Nat) : ∀ s w, wsOnly w →
    (parseValue f (s ++ w) = (parseValue f s).map (fun p => (p.1, p.2 ++ w))) ∧
    (parseItems f (s ++ w) = (parseItems f s).map (fun p => (p.1, p.2 ++ w))) ∧
    (parseMembers f (s ++ w) = (parseMembers f s).map (fun p => (p.1, p.2 ++ w))) := by
  induction f with
  | zero =>
    intro s w hw
    exact ⟨by simp [parseValue], by simp [parseItems], by simp [parseMembers]⟩
  | succ f' ih =>
    intro s w hw
    refine ⟨?_, ?_, ?_⟩
    · cases s with
      | nil =>
        rw [List.nil_append, parseValue_wsOnly (f' + 1) w hw, parseValue_nil]
        rfl
      | cons c s' =>
        rw [List.cons_append]
        by_cases hn : c = 'n'
        · subst hn
          simp only [parseValue, if_pos rfl]
          rw [expectLit_append ('u' :: 'l' :: 'l' :: []) s' w (by decide) hw]
          cases expectLit ('u' :: 'l' :: 'l' :: []) s' <;> simp
        · by_cases ht : c = 't'
          · subst ht
            simp only [parseValue, if_neg (by decide : ¬('t' : Char) = 'n'), if_pos rfl]
            rw [expectLit_append ('r' :: 'u' :: 'e' :: []) s' w (by decide) hw]
            cases expectLit ('r' :: 'u' :: 'e' :: []) s' <;> simp
          · by_cases hf : c = 'f'
            · subst hf
              simp only [parseValue, if_neg (by decide : ¬('f' : Char) = 'n'),
                if_neg (by decide : ¬('f' : Char) = 't'), if_pos rfl]
              rw [expectLit_append ('a' :: 'l' :: 's' :: 'e' :: []) s' w (by decide) hw]
              cases expectLit ('a' :: 'l' :: 's' :: 'e' :: []) s' <;> simp
            · by_cases hqq : c = '"'
              · subst hqq
                simp only [parseValue, if_neg (by decide : ¬('"' : Char) = 'n'),
                  if_neg (by decide : ¬('"' : Char) = 't'),
                  if_neg (by decide : ¬('"' : Char) = 'f'), if_pos rfl]
                rw [parseStrBody_append (f' + 1) s' w hw]
                cases parseStrBody (f' + 1) s' <;> simp
              · by_cases hbr : c = '['
                · subst hbr
                  simp only [parseValue, if_neg (by decide : ¬('[' : Char) = 'n'),
                    if_neg (by decide : ¬('[' : Char) = 't'),
                    if_neg (by decide : ¬('[' : Char) = 'f'),
                    if_neg (by decide : ¬('[' : Char) = '"'), if_pos rfl]
                  rw [skipWs_append s' w]
                  by_cases hsk : skipWs s' = []
                  · rw [if_pos hsk, skipWs_wsOnly w hw, hsk]
                    rfl
                  · rw [if_neg hsk]
                    cases hd : skipWs s' with
                    | nil => exact absurd hd hsk
                    | cons d r0 =>
                      rw [List.cons_append]
                      by_cases hdb : d = ']'
                      · subst hdb
                        simp
                      · simp only [if_neg hdb]
                        rw [← List.cons_append, (ih (d :: r0) w hw).2.1]
                        cases parseItems f' (d :: r0) <;> simp
                · by_cases hcb : c = '\x7b'
                  · subst hcb
                    simp only [parseValue, if_neg (by decide : ¬('\x7b' : Char) = 'n'),
                      if_neg (by decide : ¬('\x7b' : Char) = 't'),
                      if_neg (by decide : ¬('\x7b' : Char) = 'f'),
                      if_neg (by decide : ¬('\x7b' : Char) = '"'),
                      if_neg (by decide : ¬('\x7b' : Char) = '['), if_pos rfl]
                    rw [skipWs_append s' w]
                    by_cases hsk : skipWs s' = []
                    · rw [if_pos hsk, skipWs_wsOnly w hw, hsk]
                      rfl
                    · rw [if_neg hsk]
                      cases hd : skipWs s' with
                      | nil => exact absurd hd hsk
                      | cons d r0 =>
                        rw [List.cons_append]
                        by_cases hdb : d = '\x7d'
                        · subst hdb
                          simp
                        · simp only [if_neg hdb]
                          rw [← List.cons_append, (ih (d :: r0) w hw).2.2]
                          cases parseMembers f' (d :: r0) <;> simp
                  · by_cases hnum : (c = '-' || c.isDigit) = true
                    · simp only [parseValue, if_neg hn, if_neg ht, if_neg hf, if_neg hqq,
                        if_neg hbr, if_neg hcb, if_pos hnum]
                      have hpn := parseNumber_append (c :: s') w hw
                      rw [List.cons_append] at hpn
                      exact hpn
                    · simp only [parseValue, if_neg hn, if_neg ht, if_neg hf, if_neg hqq,
                        if_neg hbr, if_neg hcb, hnum, Bool.false_eq_true, if_false]
                      rfl
    · simp only [parseItems]
      rw [(ih s w hw).1]
      cases hv : parseValue f' s with
      | none => rfl
      | some p =>
        simp only [Option.map_some', Option.some_bind]
        rw [skipWs_append p.2 w]
        by_cases hsk : skipWs p.2 = []
        · rw [if_pos hsk, skipWs_wsOnly w hw, hsk]
          rfl
        · rw [if_neg hsk]
          cases hd : skipWs p.2 with
          | nil => exact absurd hd hsk
          | cons d r2 =>
            rw [List.cons_append]
            by_cases hdc : d = ','
            · subst hdc
              simp only [if_pos rfl]
              rw [skipWs_append r2 w]
              by_cases hsk2 : skipWs r2 = []
              · rw [if_pos hsk2, skipWs_wsOnly w hw, hsk2, parseItems_nil]
                rfl
              · rw [if_neg hsk2]
                rw [(ih (skipWs r2) w hw).2.1]
                cases parseItems f' (skipWs r2) <;> simp
            · by_cases hdb : d = ']'
              · subst hdb
                simp [if_neg hdc]
              · simp [if_neg hdc, if_neg hdb]
    · cases s with
      | nil =>
        rw [List.nil_append]
        cases w with
        | nil => rfl
        | cons b w' =>
          have hbws : isWs b = true := ((wsOnly_cons_iff b w').mp hw).1
          have hbq : ¬(b = '"') := by
            rcases isWs_cases b hbws with rfl | rfl | rfl | rfl <;> decide
          simp [parseMembers, hbq]
      | cons c s' =>
        rw [List.cons_append]
        by_cases hcq : c = '"'
        · subst hcq
          simp only [parseMembers, if_pos rfl]
          rw [parseStrBody_append (f' + 1) s' w hw]
          cases hk : parseStrBody (f' + 1) s' with
          | none => rfl
          | some kp =>
            simp only [Option.map_some', Option.some_bind]
            rw [skipWs_append kp.2 w]
            by_cases hsk : skipWs kp.2 = []
            · rw [if_pos hsk, skipWs_wsOnly w hw, hsk]
              rfl
            · rw [if_neg hsk]
              cases hd : skipWs kp.2 with
              | nil => exact absurd hd hsk
              | cons d r2 =>
                rw [List.cons_append]
                by_cases hdc : d = ':'
                · subst hdc
                  simp only [if_pos rfl]
                  rw [skipWs_append r2 w]
                  by_cases hsk2 : skipWs r2 = []
                  · rw [if_pos hsk2, skipWs_wsOnly w hw, hsk2, parseValue_nil]
                    rfl
                  · rw [if_neg hsk2]
                    rw [(ih (skipWs r2) w hw).1]
                    cases hv : parseValue f' (skipWs r2) with
                    | none => rfl
                    | some vp =>
                      simp only [Option.map_some', Option.some_bind]
                      rw [skipWs_append vp.2 w]
                      by_cases hsk3 : skipWs vp.2 = []
                      · rw [if_pos hsk3, skipWs_wsOnly w hw, hsk3]
                        rfl
                      · rw [if_neg hsk3]
                        cases hd3 : skipWs vp.2 with
                        | nil => exact absurd hd3 hsk3
                        | cons d2 r4 =>
                          rw [List.cons_append]
                          by_cases hd2c : d2 = ','
                          · subst hd2c
                            simp only [if_pos rfl]
                            rw [skipWs_append r4 w]
                            by_cases hsk4 : skipWs r4 = []
                            · rw [if_pos hsk4, skipWs_wsOnly w hw, hsk4,
                                parseMembers_nil]
                              rfl
                            · rw [if_neg hsk4]
                              rw [(ih (skipWs r4) w hw).2.2]
                              cases parseMembers f' (skipWs r4) <;> simp
                          · by_cases hd2b : d2 = '\x7d'
                            · subst hd2b
                              simp [if_neg hd2c]
                            · simp [if_neg hd2c, if_neg hd2b]
                · simp [if_neg hdc]
        · simp [parseMembers, hcq]

theorem readU4_len (s : List Char) (p : Nat × List Char) (h : readU4 s = some p) :
    p.2.length + 4 = s.length := by
  rcases s with _ | ⟨a1, _ | ⟨a2, _ | ⟨a3, _ | ⟨a4, rest⟩⟩⟩⟩ <;>
    simp only [readU4] at h
  · cases h
  · cases h
  · cases h
  · cases h
  · rcases Option.map_eq_some'.mp h with ⟨n, -, rfl⟩
    simp

theorem readLowSur_len (s : List Char) (p : Nat × List Char)
    (h : readLowSur s = some p) : p.2.length + 6 = s.length := by
  rcases s with _ | ⟨a, _ | ⟨e, restU⟩⟩ <;> simp only [readLowSur] at h
  · cases h
  · cases h
  · by_cases hae : (a = '\\' && e = 'u') = true
    · rw [if_pos hae] at h
      rcases Option.bind_eq_some.mp h with ⟨q, hq, hif⟩
      have := readU4_len restU q hq
      by_cases hr : (decide (0xDC00 ≤ q.1) && decide (q.1 ≤ 0xDFFF)) = true
      · rw [if_pos hr] at hif
        injection hif with hpq
        subst hpq
        simp only [List.length_cons]
        omega
      · rw [if_neg hr] at hif
        cases hif
    · rw [if_neg hae] at h
      cases h

theorem expectLit_len (lit : List Char) : ∀ s r, expectLit lit s = some r →
    r.length + lit.length = s.length := by
  induction lit with
  | nil =>
    intro s r h
    simp only [expectLit, Option.some.injEq] at h
    subst h
    simp
  | cons l lit' ih =>
    intro s r h
    cases s with
    | nil => cases h
    | cons c s' =>
      simp only [expectLit] at h
      by_cases hcl : c = l
      · rw [if_pos hcl] at h
        have := ih s' r h
        simp only [List.length_cons]
        omega
      · rw [if_neg hcl] at h
        cases h

theorem takeDigits_len (s : List Char) : ∀ acc,
    (takeDigits acc s).2.length ≤ s.length := by
  induction s with
  | nil => intro acc; simp [takeDigits]
  | cons c s' ih =>
    intro acc
    by_cases hd : c.isDigit
    · simp only [takeDigits, hd, if_pos]
      exact (ih _).trans (by simp)
    · simp [takeDigits, hd]

theorem parseNatPart_len (s : List Char) (p : Nat × List Char)
    (h : parseNatPart s = some p) : p.2.length < s.length := by
  cases s with
  | nil => cases h
  | cons c s' =>
    by_cases h0 : c = '0'
    · subst h0
      simp only [parseNatPart, Option.some.injEq] at h
      subst h
      simp
    · simp only [parseNatPart, h0] at h
      by_cases hd : c.isDigit
      · rw [if_pos hd] at h
        injection h with hp
        subst hp
        have := takeDigits_len s' (digitVal c)
        simp only [List.length_cons]
        omega
      · rw [if_neg hd] at h
        cases h

theorem parseNumber_len (s : List Char) (p : PyVal × List Char)
    (h : parseNumber s = some p) : p.2.length < s.length := by
  cases s with
  | nil => cases h
  | cons c s' =>
    simp only [parseNumber] at h
    by_cases hm : c = '-'
    · rw [if_pos hm] at h
      rcases Option.map_eq_some'.mp h with ⟨q, hq, rfl⟩
      have := parseNatPart_len s' q hq
      simp only [List.length_cons]
      omega
    · rw [if_neg hm] at h
      rcases Option.map_eq_some'.mp h with ⟨q, hq, rfl⟩
      exact parseNatPart_len (c :: s') q hq

theorem parseStrBody_len (f : Nat) : ∀ s p, parseStrBody f s = some p →
    p.2.length < s.length := by
  induction f with
  | zero => intro s p h; cases h
  | succ f' ih =>
    intro s p h
    cases s with
    | nil => cases h
    | cons c rest =>
      simp only [parseStrBody] at h
      by_cases hq : c = '"'
      · rw [if_pos hq] at h
        injection h with hp
        subst hp
        simp
      · rw [if_neg hq] at h
        by_cases hb : c = '\\'
        · rw [if_pos hb] at h
          cases rest with
          | nil => cases h
          | cons e rest2 =>
            simp only [] at h
            by_cases he : e = 'u'
            · rw [if_pos he] at h
              rcases Option.bind_eq_some.mp h with ⟨up, hup, h2⟩
              have hu4 := readU4_len rest2 up hup
              by_cases hh : (decide (0xD800 ≤ up.1) && decide (up.1 ≤ 0xDBFF)) = true
              · rw [if_pos hh] at h2
                rcases Option.bind_eq_some.mp h2 with ⟨lp, hlp, h3⟩
                have hls := readLowSur_len up.2 lp hlp
                rcases Option.map_eq_some'.mp h3 with ⟨q, hq2, rfl⟩
                have := ih lp.2 q hq2
                simp only [List.length_cons]
                omega
              · rw [if_neg hh] at h2
                by_cases hlo : (decide (0xDC00 ≤ up.1) && decide (up.1 ≤ 0xDFFF)) = true
                · rw [if_pos hlo] at h2
                  cases h2
                · rw [if_neg hlo] at h2
                  rcases Option.map_eq_some'.mp h2 with ⟨q, hq2, rfl⟩
                  have := ih up.2 q hq2
                  simp only [List.length_cons]
                  omega
            · rw [if_neg he] at h
              rcases Option.bind_eq_some.mp h with ⟨d, -, h2⟩
              rcases Option.map_eq_some'.mp h2 with ⟨q, hq2, rfl⟩
              have := ih rest2 q hq2
              simp only [List.length_cons]
              omega
        · rw [if_neg hb] at h
          by_cases hctl : c.toNat < 0x20
          · rw [if_pos hctl] at h
            cases h
          · rw [if_neg hctl] at h
            rcases Option.map_eq_some'.mp h with ⟨q, hq2, rfl⟩
            have := ih rest q hq2
            simp only [List.length_cons]
            omega

theorem parse_len_all (f : Nat) : ∀ s,
    (∀ p, parseValue f s = some p → p.2.length < s.length) ∧
    (∀ p, parseItems f s = some p → p.2.length < s.length) ∧
    (∀ p, parseMembers f s = some p → p.2.length < s.length) := by
  induction f with
  | zero =>
    intro s
    refine ⟨?_, ?_, ?_⟩ <;> exact fun p h => by cases h
  | succ f' ih =>
    intro s
    refine ⟨?_, ?_, ?_⟩
    · intro p h
      cases s with
      | nil => rw [parseValue_nil] at h; cases h
      | cons c s' =>
        simp only [parseValue] at h
        by_cases hn : c = 'n'
        · rw [if_pos hn] at h
          rcases Option.map_eq_some'.mp h with ⟨r, hr, rfl⟩
          have := expectLit_len _ s' r hr
          simp only [List.length_cons]
          omega
        · rw [if_neg hn] at h
          by_cases ht : c = 't'
          · rw [if_pos ht] at h
            rcases Option.map_eq_some'.mp h with ⟨r, hr, rfl⟩
            have := expectLit_len _ s' r hr
            simp only [List.length_cons]
            omega
          · rw [if_neg ht] at h
            by_cases hf : c = 'f'
            · rw [if_pos hf] at h
              rcases Option.map_eq_some'.mp h with ⟨r, hr, rfl⟩
              have := expectLit_len _ s' r hr
              simp only [List.length_cons]
              omega
            · rw [if_neg hf] at h
              by_cases hqq : c = '"'
              · rw [if_pos hqq] at h
                rcases Option.map_eq_some'.mp h with ⟨q, hq, rfl⟩
                have := parseStrBody_len (f' + 1) s' q hq
                simp only [List.length_cons]
                omega
              · rw [if_neg hqq] at h
                by_cases hbr : c = '['
                · rw [if_pos hbr] at h
                  cases hskw : skipWs s' with
                  | nil => rw [hskw] at h; cases h
                  | cons d r0 =>
                    rw [hskw] at h
                    simp only [] at h
                    have hsw := skipWs_length s'
                    rw [hskw] at hsw
                    simp only [List.length_cons] at hsw
                    by_cases hdb : d = ']'
                    · rw [if_pos hdb] at h
                      injection h with hp
                      subst hp
                      show r0.length < (c :: s').length
                      simp only [List.length_cons]
                      omega
                    · rw [if_neg hdb] at h
                      rcases Option.map_eq_some'.mp h with ⟨q, hq, rfl⟩
                      have := (ih (d :: r0)).2.1 q hq
                      simp only [List.length_cons] at this ⊢
                      omega
                · rw [if_neg hbr] at h
                  by_cases hcb : c = '\x7b'
                  · rw [if_pos hcb] at h
                    cases hskw : skipWs s' with
                    | nil => rw [hskw] at h; cases h
                    | cons d r0 =>
                      rw [hskw] at h
                      simp only [] at h
                      have hsw := skipWs_length s'
                      rw [hskw] at hsw
                      simp only [List.length_cons] at hsw
                      by_cases hdb : d = '\x7d'
                      · rw [if_pos hdb] at h
                        injection h with hp
                        subst hp
                        show r0.length < (c :: s').length
                        simp only [List.length_cons]
                        omega
                      · rw [if_neg hdb] at h
                        rcases Option.map_eq_some'.mp h with ⟨q, hq, rfl⟩
                        have := (ih (d :: r0)).2.2 q hq
                        simp only [List.length_cons] at this ⊢
                        omega
                  · rw [if_neg hcb] at h
                    by_cases hnum : (c = '-' || c.isDigit) = true
                    · rw [if_pos hnum] at h
                      exact parseNumber_len (c :: s') p h
                    · rw [if_neg hnum] at h
                      cases h
    · intro p h
      simp only [parseItems] at h
      rcases Option.bind_eq_some.mp h with ⟨q, hq, h2⟩
      have hq2 := (ih s).1 q hq
      cases hskw : skipWs q.2 with
      | nil => rw [hskw] at h2; cases h2
      | cons d r2 =>
        rw [hskw] at h2
        simp only [] at h2
        have hsw := skipWs_length q.2
        rw [hskw] at hsw
        simp only [List.length_cons] at hsw
        by_cases hdc : d = ','
        · rw [if_pos hdc] at h2
          rcases Option.map_eq_some'.mp h2 with ⟨q2, hq2', rfl⟩
          have h3 := (ih (skipWs r2)).2.1 q2 hq2'
          have h4 := skipWs_length r2
          simp only []
          omega
        · rw [if_neg hdc] at h2
          by_cases hdb : d = ']'
          · rw [if_pos hdb] at h2
            injection h2 with hp
            subst hp
            show r2.length < s.length
            omega
          · rw [if_neg hdb] at h2
            cases h2
    · intro p h
      cases s with
      | nil => rw [parseMembers_nil] at h; cases h
      | cons c rest =>
        simp only [parseMembers] at h
        by_cases hcq : c = '"'
        · rw [if_pos hcq] at h
          rcases Option.bind_eq_some.mp h with ⟨kp, hkp, h2⟩
          have hk := parseStrBody_len (f' + 1) rest kp hkp
          cases hskw : skipWs kp.2 with
          | nil => rw [hskw] at h2; cases h2
          | cons d r2 =>
            rw [hskw] at h2
            simp only [] at h2
            have hsw := skipWs_length kp.2
            rw [hskw] at hsw
            simp only [List.length_cons] at hsw
            by_cases hdc : d = ':'
            · rw [if_pos hdc] at h2
              rcases Option.bind_eq_some.mp h2 with ⟨vp, hvp, h3⟩
              have hv := (ih (skipWs r2)).1 vp hvp
              have hr2 := skipWs_length r2
              cases hskw3 : skipWs vp.2 with
              | nil => rw [hskw3] at h3; cases h3
              | cons d2 r4 =>
                rw [hskw3] at h3
                simp only [] at h3
                have hsw3 := skipWs_length vp.2
                rw [hskw3] at hsw3
                simp only [List.length_cons] at hsw3
                by_cases hd2c : d2 = ','
                · rw [if_pos hd2c] at h3
                  rcases Option.map_eq_some'.mp h3 with ⟨q2, hq2', rfl⟩
                  have h5 := (ih (skipWs r4)).2.2 q2 hq2'
                  have h6 := skipWs_length r4
                  simp only [List.length_cons]
                  omega
                · rw [if_neg hd2c] at h3
                  by_cases hd2b : d2 = '\x7d'
                  · rw [if_pos hd2b] at h3
                    injection h3 with hp
                    subst hp
                    show r4.length < (c :: rest).length
                    simp only [List.length_cons]
                    omega
                  · rw [if_neg hd2b] at h3
                    cases h3
            · rw [if_neg hdc] at h2
              cases h2
        · rw [if_neg hcq] at h
          cases h

theorem parseStrBody_stable (f : Nat) : ∀ s, s.length < f →
    parseStrBody f s = parseStrBody (f + 1) s := by
  induction f with
  | zero => intro s h; exact absurd h (Nat.not_lt_zero _)
  | succ f' ih =>
    intro s h
    cases s with
    | nil => simp [parseStrBody]
    | cons c rest =>
      by_cases hq : c = '"'
      · subst hq
        simp [parseStrBody]
      · by_cases hb : c = '\\'
        · subst hb
          cases rest with
          | nil => simp [parseStrBody]
          | cons e rest2 =>
            simp only [List.length_cons] at h
            simp only [parseStrBody, if_neg hq, if_pos rfl]
            by_cases he : e = 'u'
            · rw [if_pos he, if_pos he]
              cases hr : readU4 rest2 with
              | none => rfl
              | some up =>
                simp only [Option.some_bind]
                have hu4 := readU4_len rest2 up hr
                by_cases hh : (decide (0xD800 ≤ up.1) && decide (up.1 ≤ 0xDBFF)) = true
                · rw [if_pos hh, if_pos hh]
                  cases hl : readLowSur up.2 with
                  | none => rfl
                  | some lp =>
                    simp only [Option.some_bind]
                    have hls := readLowSur_len up.2 lp hl
                    rw [ih lp.2 (by omega)]
                    simp
                · rw [if_neg hh, if_neg hh]
                  by_cases hlo : (decide (0xDC00 ≤ up.1) && decide (up.1 ≤ 0xDFFF)) = true
                  · rw [if_pos hlo, if_pos hlo]
                    simp
                  · rw [if_neg hlo, if_neg hlo]
                    rw [ih up.2 (by omega)]
                    simp
            · rw [if_neg he, if_neg he]
              cases hesc : escSimple e with
              | none => rfl
              | some d =>
                simp only [Option.some_bind]
                rw [ih rest2 (by omega)]
                simp
        · by_cases hctl : c.toNat < 0x20
          · simp [parseStrBody, hq, hb, hctl]
          · simp only [List.length_cons] at h
            simp only [parseStrBody, if_neg hq, if_neg hb, if_neg hctl]
            rw [ih rest (by omega)]

theorem parseStrBody_stable_add (k f : Nat) (s : List Char) (h : s.length < f) :
    parseStrBody f s = parseStrBody (f + k) s := by
  induction k with
  | zero => rfl
  | succ k' ih =>
    rw [ih, parseStrBody_stable (f + k') s (by omega)]
    rfl

theorem parse_stable_all (f : Nat) : ∀ s,
    (2 * s.length + 1 ≤ f → parseValue f s = parseValue (f + 1) s) ∧
    (2 * s.length + 2 ≤ f → parseItems f s = parseItems (f + 1) s) ∧
    (2 * s.length + 2 ≤ f → parseMembers f s = parseMembers (f + 1) s) := by
  induction f with
  | zero =>
    intro s
    refine ⟨?_, ?_, ?_⟩ <;> intro h <;> omega
  | succ f' ih =>
    intro s
    refine ⟨?_, ?_, ?_⟩
    · intro hcond
      cases s with
      | nil => rw [parseValue_nil, parseValue_nil]
      | cons c s' =>
        simp only [List.length_cons] at hcond
        simp only [parseValue]
        by_cases hn : c = 'n'
        · rw [if_pos hn, if_pos hn]
        · rw [if_neg hn, if_neg hn]
          by_cases ht : c = 't'
          · rw [if_pos ht, if_pos ht]
          · rw [if_neg ht, if_neg ht]
            by_cases hf2 : c = 'f'
            · rw [if_pos hf2, if_pos hf2]
            · rw [if_neg hf2, if_neg hf2]
              by_cases hqq : c = '"'
              · rw [if_pos hqq, if_pos hqq,
                  parseStrBody_stable (f' + 1) s' (by omega)]
              · rw [if_neg hqq, if_neg hqq]
                by_cases hbr : c = '['
                · rw [if_pos hbr, if_pos hbr]
                  cases hskw : skipWs s' with
                  | nil => rfl
                  | cons d r0 =>
                    simp only []
                    have hsw := skipWs_length s'
                    rw [hskw] at hsw
                    simp only [List.length_cons] at hsw
                    by_cases hdb : d = ']'
                    · rw [if_pos hdb, if_pos hdb]
                    · rw [if_neg hdb, if_neg hdb,
                        (ih (d :: r0)).2.1 (by simp only [List.length_cons]; omega)]
                · rw [if_neg hbr, if_neg hbr]
                  by_cases hcb : c = '\x7b'
                  · rw [if_pos hcb, if_pos hcb]
                    cases hskw : skipWs s' with
                    | nil => rfl
                    | cons d r0 =>
                      simp only []
                      have hsw := skipWs_length s'
                      rw [hskw] at hsw
                      simp only [List.length_cons] at hsw
                      by_cases hdb : d = '\x7d'
                      · rw [if_pos hdb, if_pos hdb]
                      · rw [if_neg hdb, if_neg hdb,
                          (ih (d :: r0)).2.2 (by simp only [List.length_cons]; omega)]
                  · rw [if_neg hcb, if_neg hcb]
    · intro hcond
      conv_lhs => rw [parseItems]
      conv_rhs => rw [parseItems]
      rw [(ih s).1 (by omega)]
      cases hv : parseValue (f' + 1) s with
      | none => rfl
      | some p =>
        simp only [Option.some_bind]
        have hlen := (parse_len_all (f' + 1) s).1 p hv
        cases hskw : skipWs p.2 with
        | nil => rfl
        | cons d r2 =>
          simp only []
          have hsw := skipWs_length p.2
          rw [hskw] at hsw
          simp only [List.length_cons] at hsw
          by_cases hdc : d = ','
          · rw [if_pos hdc, if_pos hdc,
              (ih (skipWs r2)).2.1 (by have := skipWs_length r2; omega)]
          · rw [if_neg hdc, if_neg hdc]
    · intro hcond
      cases s with
      | nil => rw [parseMembers_nil, parseMembers_nil]
      | cons c rest =>
        simp only [List.length_cons] at hcond
        conv_lhs => rw [parseMembers]
        conv_rhs => rw [parseMembers]
        by_cases hcq : c = '"'
        · rw [if_pos hcq, if_pos hcq,
            parseStrBody_stable (f' + 1) rest (by omega)]
          cases hk : parseStrBody (f' + 2) rest with
          | none => rfl
          | some kp =>
            simp only [Option.some_bind]
            have hklen : kp.2.length < rest.length := by
              have := parseStrBody_len (f' + 2) rest kp hk
              exact this
            cases hskw : skipWs kp.2 with
            | nil => rfl
            | cons d r2 =>
              simp only []
              have hsw := skipWs_length kp.2
              rw [hskw] at hsw
              simp only [List.length_cons] at hsw
              by_cases hdc : d = ':'
              · rw [if_pos hdc, if_pos hdc,
                  (ih (skipWs r2)).1 (by have := skipWs_length r2; omega)]
                cases hv : parseValue (f' + 1) (skipWs r2) with
                | none => rfl
                | some vp =>
                  simp only [Option.some_bind]
                  have hvlen := (parse_len_all (f' + 1) (skipWs r2)).1 vp hv
                  have hskr2 := skipWs_length r2
                  cases hskw3 : skipWs vp.2 with
                  | nil => rfl
                  | cons d2 r4 =>
                    simp only []
                    have hsw3 := skipWs_length vp.2
                    rw [hskw3] at hsw3
                    simp only [List.length_cons] at hsw3
                    by_cases hd2c : d2 = ','
                    · rw [if_pos hd2c, if_pos hd2c,
                        (ih (skipWs r4)).2.2 (by have := skipWs_length r4; omega)]
                    · rw [if_neg hd2c, if_neg hd2c]
              · rw [if_neg hdc, if_neg hdc]
        · rw [if_neg hcq, if_neg hcq]

theorem parse_stable_add (k f : Nat) (s : List Char) (h : 2 * s.length + 1 ≤ f) :
    parseValue f s = parseValue (f + k) s := by
  induction k with
  | zero => rfl
  | succ k' ih =>
    rw [ih, (parse_stable_all (f + k') s).1 (by omega)]
    rfl

theorem pyLoads_append_ws (s w : List Char) (hw : wsOnly w) :
    pyLoads (s ++ w) = pyLoads s := by
  unfold pyLoads
  rw [skipWs_append s w]
  by_cases hsk : skipWs s = []
  · rw [if_pos hsk, hsk, skipWs_wsOnly w hw, parseValue_nil, parseValue_nil]
  · rw [if_neg hsk]
    rw [(parse_append_all (2 * (s ++ w).length + 2) (skipWs s) w hw).1]
    have hst : parseValue (2 * s.length + 2) (skipWs s)
        = parseValue (2 * (s ++ w).length + 2) (skipWs s) := by
      have hlen := skipWs_length s
      have heq : 2 * (s ++ w).length + 2 = (2 * s.length + 2) + 2 * w.length := by
        simp only [List.length_append]
        ring
      rw [heq]
      exact parse_stable_add (2 * w.length) (2 * s.length + 2) (skipWs s) (by omega)
    rw [← hst]
    cases hv : parseValue (2 * s.length + 2) (skipWs s) with
    | none => rfl
    | some p =>
      simp only [Option.map_some']
      rw [skipWs_append p.2 w]
      by_cases hsk2 : skipWs p.2 = []
      · rw [if_pos hsk2, hsk2, skipWs_wsOnly w hw]
      · rw [if_neg hsk2]
        have hne : skipWs p.2 ++ w ≠ [] := fun hx => hsk2 (List.append_eq_nil.mp hx).1
        rw [if_neg hne, if_neg hsk2]

theorem pyLoads_append_newline (s : List Char) :
    pyLoads (s ++ ['\n']) = pyLoads s :=
  pyLoads_append_ws s ['\n'] (by intro c hc; rcases List.mem_singleton.mp hc with rfl; rfl)

/-- C7: for every call that receives a full newline-terminated line, the
line content excluding its terminator is decoded as JSON (the source
passes the whole line to the decoder, but JSON decoding ignores the
trailing newline, proved by pyLoads_append_newline): if decoding fails
the call fails with MalformedResponse, and if decoding succeeds the call
returns the decoded value as the response. -/
theorem send_decodes_line (msg : PyVal) (body : List Char) (conn : Conn)
    (content rest : List Char)
    (h : pyDumps msg = some body)
    (hin : conn.inbox = content ++ '\n' :: rest)
    (hnl : ('\n' : Char) ∉ content) :
    (send msg conn).1 =
      (match pyLoads content with
       | some v => Except.ok v
       | Option.none => Except.error SendErr.malformedResponse) := by
  have hrl : readLine conn.inbox = (content ++ ['\n'], rest) := by
    rw [hin]
    exact readLine_of_terminated content rest hnl
  have hne : content ++ ['\n'] ≠ [] := by simp
  rw [send_eq msg body conn h, hrl]
  simp only []
  rw [if_neg hne, pyLoads_append_newline content]

theorem send_decodes_line_witness :
    pyDumps wReq = some wReqBody ∧
    ('\n' : Char) ∉ ("\x7b\"id\": 2, \"ok\": true\x7d".toList) ∧
    (send wReq ⟨"\x7b\"id\": 2, \"ok\": true\x7d".toList ++ '\n' :: [], [], []⟩).1 =
      (match pyLoads ("\x7b\"id\": 2, \"ok\": true\x7d".toList) with
       | some v => Except.ok v
       | Option.none => Except.error SendErr.malformedResponse) :=
  ⟨rfl, by decide,
    send_decodes_line wReq wReqBody
      ⟨"\x7b\"id\": 2, \"ok\": true\x7d".toList ++ '\n' :: [], [], []⟩
      ("\x7b\"id\": 2, \"ok\": true\x7d".toList) [] rfl rfl (by decide)⟩

/-- C1: for a serializable request whose JSON encoding has no raw
newline, the call puts exactly the frame encoding-plus-one-newline on the
wire (no other framing), and when the server echoes back a line that
decodes to an equal value, the call returns that equal value
(encode-then-decode round trip). -/
theorem send_round_trip (msg : PyVal) (body : List Char) (conn : Conn) (rest : List Char)
    (h : pyDumps msg = some body)
    (hnl : ('\n' : Char) ∉ body)
    (hbuf : conn.buffer = [])
    (hin : conn.inbox = body ++ '\n' :: rest)
    (hecho : pyLoads body = some msg) :
    (send msg conn).1 = Except.ok msg ∧
    (send msg conn).2.1.wire = conn.wire ++ (body ++ ['\n']) ∧
    (send msg conn).2.1.buffer = [] := by
  have hrl : readLine conn.inbox = (body ++ ['\n'], rest) := by
    rw [hin]
    exact readLine_of_terminated body rest hnl
  have hne : body ++ ['\n'] ≠ [] := by simp
  rw [send_eq msg body conn h, hrl]
  refine ⟨?_, ?_, rfl⟩
  · simp only []
    rw [if_neg hne, pyLoads_append_newline body, hecho]
  · simp only [hbuf]
    simp

theorem send_round_trip_witness :
    pyDumps wReq = some wReqBody ∧
    pyLoads wReqBody = some wReq ∧
    ('\n' : Char) ∉ wReqBody ∧
    (send wReq ⟨wReqBody ++ '\n' :: [], [], []⟩).1 = Except.ok wReq ∧
    (send wReq ⟨wReqBody ++ '\n' :: [], [], []⟩).2.1.wire = [] ++ (wReqBody ++ ['\n']) :=
  ⟨rfl, rfl, by decide,
    (send_round_trip wReq wReqBody ⟨wReqBody ++ '\n' :: [], [], []⟩ []
      rfl (by decide) rfl rfl rfl).1,
    (send_round_trip wReq wReqBody ⟨wReqBody ++ '\n' :: [], [], []⟩ []
      rfl (by decide) rfl rfl rfl).2.1⟩
